import Mathlib

/-!
Verification of the declarative data-validation engine specified for the
`text-to-sql` notebooks (`src/pydantic.ipynb`, `src/sqlmodel.ipynb`).

The notebooks only declare schemas (`Delivery`, `User`, `Settings`) and call
the validation library; the engine itself is not part of the repository's
source files.  Following the specification, the engine (type coercers, field
descriptors, validation engine, serializer) is therefore modelled from the
spec's §3-§4 and §7, while the concrete schemas and example inputs are
transcribed from the notebook cells.
-/

/-- Modelled from the spec: the date/time value produced by datetime coercion
(§4.1).  A datetime is either a civil timestamp (as parsed from an ISO-8601
string or supplied already typed) or a raw Unix-epoch number. -/
inductive Datetime where
  | civil (year month day hour minute second : Nat) : Datetime
  | epoch (n : Int) : Datetime
deriving DecidableEq

/-- Modelled from the spec: the small fixed value universe of §6 — string,
number, boolean, null, ordered sequence, nested mapping — plus the validated
instance produced by the engine for a nested schema field (§3,
ValidatedInstance). -/
inductive Value where
  | vStr : String → Value
  | vInt : Int → Value
  | vBool : Bool → Value
  | vNull : Value
  | vDatetime : Datetime → Value
  | vSeq : List Value → Value
  | vMap : List (String × Value) → Value
  | vInst : List (String × Value) → Value

/-- Modelled from the spec: the error kinds of §7 (the registry kinds
`DuplicateSchema`/`UnknownSchema` concern the registry, which no claim
touches, and are omitted). -/
inductive ErrorKind where
  | missingField
  | invalidFormat
  | arityMismatch
  | valueError
  | modelError
deriving DecidableEq

/-- Modelled from the spec: one entry of a ValidationError (§3): field path
(supports nested paths), kind, message, and the literal rejected input. -/
structure FieldError where
  field_path : List String
  kind : ErrorKind
  message : String
  input_value : Value

/-- Prepend one path component to an error's field path (used when re-wrapping
nested and per-index errors, §4.1). -/
def underPath (p : String) (e : FieldError) : FieldError :=
  { e with field_path := p :: e.field_path }

/-- Numeric value of a decimal digit character. -/
def digitVal (c : Char) : Nat := c.toNat - 48

/-- Whether all of the given characters are decimal digits. -/
def allDigits (cs : List Char) : Bool := cs.all Char.isDigit

/-- Assemble a civil datetime from the digit characters of an ISO-8601 string,
checking digit-ness and calendar field ranges. -/
def mkCivil (y1 y2 y3 y4 mo1 mo2 d1 d2 h1 h2 mi1 mi2 s1 s2 : Char) :
    Option Datetime :=
  if allDigits [y1, y2, y3, y4, mo1, mo2, d1, d2, h1, h2, mi1, mi2, s1, s2] then
    let y := ((digitVal y1 * 10 + digitVal y2) * 10 + digitVal y3) * 10 + digitVal y4
    let mo := digitVal mo1 * 10 + digitVal mo2
    let d := digitVal d1 * 10 + digitVal d2
    let h := digitVal h1 * 10 + digitVal h2
    let mi := digitVal mi1 * 10 + digitVal mi2
    let s := digitVal s1 * 10 + digitVal s2
    if 1 ≤ mo && mo ≤ 12 && 1 ≤ d && d ≤ 31 && h < 24 && mi < 60 && s < 60 then
      some (.civil y mo d h mi s)
    else none
  else none

/-- Modelled from the spec: ISO-8601 parsing for the datetime coercer (§4.1).
Accepts `YYYY-MM-DDTHH:MM:SS` with an optional trailing `Z`. -/
def parseISO8601 (s : String) : Option Datetime :=
  match s.toList with
  | [y1, y2, y3, y4, '-', mo1, mo2, '-', d1, d2, 'T',
     h1, h2, ':', mi1, mi2, ':', s1, s2, 'Z'] =>
      mkCivil y1 y2 y3 y4 mo1 mo2 d1 d2 h1 h2 mi1 mi2 s1 s2
  | [y1, y2, y3, y4, '-', mo1, mo2, '-', d1, d2, 'T',
     h1, h2, ':', mi1, mi2, ':', s1, s2] =>
      mkCivil y1 y2 y3 y4 mo1 mo2 d1 d2 h1 h2 mi1 mi2 s1 s2
  | _ => none

/-- Modelled from the spec: the primitive kinds needed by the notebook schemas
(string, integer, boolean, date/time; §2 Type Coercers). -/
inductive PrimKind where
  | pString
  | pInt
  | pBool
  | pDatetime
deriving DecidableEq

/-- Modelled from the spec: per-primitive-kind coercion (§4.1).  Each kind has
an explicit, total set of acceptable source representations; a datetime-typed
field accepts an already-typed datetime value, an ISO-8601 string, or a
Unix-epoch numeric value; any other representation fails with
`InvalidFormat`.  The error's path is empty here; callers prepend the field
name or the element index. -/
def coercePrim (k : PrimKind) (v : Value) : Except FieldError Value :=
  match k, v with
  | .pString, .vStr s => .ok (.vStr s)
  | .pInt, .vInt n => .ok (.vInt n)
  | .pBool, .vBool b => .ok (.vBool b)
  | .pDatetime, .vDatetime d => .ok (.vDatetime d)
  | .pDatetime, .vStr s =>
      match parseISO8601 s with
      | some d => .ok (.vDatetime d)
      | none => .error ⟨[], .invalidFormat, "not a valid ISO-8601 datetime string", v⟩
  | .pDatetime, .vInt n => .ok (.vDatetime (.epoch n))
  | .pString, _ => .error ⟨[], .invalidFormat, "expected a string", v⟩
  | .pInt, _ => .error ⟨[], .invalidFormat, "expected an integer", v⟩
  | .pBool, _ => .error ⟨[], .invalidFormat, "expected a boolean", v⟩
  | .pDatetime, _ => .error ⟨[], .invalidFormat, "expected a datetime", v⟩

/-- The declared acceptance set of the datetime coercer: an already-typed
datetime value, an ISO-8601 string, or a Unix-epoch numeric value. -/
def isDatetimeAcceptable (v : Value) : Bool :=
  match v with
  | .vDatetime _ => true
  | .vInt _ => true
  | .vStr s => (parseISO8601 s).isSome
  | _ => false

/-- The error kind of a single-error coercion result, if it failed. -/
def primResultKind (r : Except FieldError Value) : Option ErrorKind :=
  match r with
  | .ok _ => none
  | .error e => some e.kind

example : parseISO8601 "2020-01-02T03:04:05Z" = some (.civil 2020 1 2 3 4 5) := by decide

example : parseISO8601 "July 4th, 1776" = none := by decide

/-- Modelled from the spec: the Field Descriptor of §3, parametric in the type
of declared types so that nested schemas can be built as one nested inductive
family.  `alias_name` is the spec's `alias` (a Lean keyword), the alternate
input key; `default` is a static value or a zero-argument generator function;
`computed` derives the field from previously validated fields. -/
structure FieldOf (τ : Type) where
  name : String
  declared_type : τ
  required : Bool
  default : Option (Value ⊕ (Unit → Value))
  alias_name : Option String
  validators : List (Value → Except String Value)
  computed : Option (List (String × Value) → Value)

/-- Modelled from the spec: a Schema (§3) — a name, an ordered sequence of
Field Descriptors, and its model-level (cross-field) validators. -/
structure SchemaOf (τ : Type) where
  name : String
  fields : List (FieldOf τ)
  modelValidators : List (List (String × Value) → Except String Unit)

/-- Modelled from the spec: the TypeSpec of §3 — a tagged variant over
Primitive(kind), FixedSequence(element specs) and NestedSchema. -/
inductive TypeSpec where
  | prim : PrimKind → TypeSpec
  | fixedSeq : List TypeSpec → TypeSpec
  | nested : SchemaOf TypeSpec → TypeSpec

abbrev Schema := SchemaOf TypeSpec

abbrev FieldDescriptor := FieldOf TypeSpec

/-- A raw input mapping (§6): string keys, values from the fixed universe. -/
abbrev RawMapping := List (String × Value)

/-- The assembled field environment of one validation call (§3,
ValidatedInstance: a mapping from field name to validated value). -/
abbrev Instance := List (String × Value)

/-- Case-sensitive lookup of the first entry with the given key. -/
def lookupKey (m : RawMapping) (k : String) : Option Value :=
  match m with
  | [] => none
  | (k', v) :: rest => if k' = k then some v else lookupKey rest k

/-- ASCII lower-casing of one character (case folding for alias lookup). -/
def lowerChar (c : Char) : Char :=
  if 'A' ≤ c ∧ c ≤ 'Z' then Char.ofNat (c.toNat + 32) else c

/-- The case-folded character content of a string. -/
def lowerStr (s : String) : List Char := s.toList.map lowerChar

/-- Case-insensitive lookup of the first entry whose key matches the given
key up to letter case (used for alias resolution, §4.3 step 1). -/
def lookupKeyCI (m : RawMapping) (k : String) : Option Value :=
  match m with
  | [] => none
  | (k', v) :: rest => if lowerStr k' = lowerStr k then some v else lookupKeyCI rest k

/-- Modelled from the spec: resolve a field's effective input (§4.3 step 1):
look up `alias` first (case-insensitive) if present, else the field name. -/
def resolveInput (f : FieldDescriptor) (m : RawMapping) : Option Value :=
  match f.alias_name with
  | some a =>
      match lookupKeyCI m a with
      | some v => some v
      | none => lookupKey m f.name
  | none => lookupKey m f.name

/-- Modelled from the spec: run a field's attached validators in declaration
order (§4.3 step 5); each receives the value and returns an accepted
(possibly transformed) value or a failure message; the first failure halts
the chain. -/
def runValidators (gs : List (Value → Except String Value)) (v : Value) :
    Except String Value :=
  match gs with
  | [] => .ok v
  | g :: rest =>
      match g v with
      | .ok w => runValidators rest w
      | .error msg => .error msg

/-- Modelled from the spec: run the model-level validators against the
assembled successful fields (§4.3 step 6), appending one `ModelError` per
failure. -/
def runModelValidators (ms : List (List (String × Value) → Except String Unit))
    (env : List (String × Value)) : List FieldError :=
  match ms with
  | [] => []
  | mv :: rest =>
      match mv env with
      | .ok _ => runModelValidators rest env
      | .error msg => ⟨[], .modelError, msg, .vMap env⟩ :: runModelValidators rest env

/-- Modelled from the spec: evaluate every `computed` field in declaration
order (§4.3 step 7); each may read any previously validated or computed
field, and its value is appended to the environment. -/
def evalComputed (fields : List FieldDescriptor) (env : Instance) : Instance :=
  match fields with
  | [] => env
  | f :: fs =>
      match f.computed with
      | some g => evalComputed fs (env ++ [(f.name, g env)])
      | none => evalComputed fs env

mutual

/-- Modelled from the spec: the type coercers (§4.1),
`coerce(input_value, type_spec)`.  FixedSequence requires an ordered sequence
of exactly the declared arity (`ArityMismatch` otherwise) and collects
per-element failures under that index's sub-path; NestedSchema recursively
invokes the validation engine on the nested input mapping. -/
def coerce (t : TypeSpec) (v : Value) : Except (List FieldError) Value :=
  match t with
  | .prim k =>
      match coercePrim k v with
      | .ok w => .ok w
      | .error e => .error [e]
  | .fixedSeq specs =>
      match v with
      | .vSeq elems =>
          if elems.length = specs.length then
            match coerceElems specs elems 0 with
            | ([], vals) => .ok (.vSeq vals)
            | (e :: es, _) => .error (e :: es)
          else .error [⟨[], .arityMismatch, "sequence has the wrong number of elements", v⟩]
      | _ => .error [⟨[], .invalidFormat, "expected an ordered sequence", v⟩]
  | .nested s =>
      match v with
      | .vMap mm =>
          match validate s mm with
          | .ok inst => .ok (.vInst inst)
          | .error errs => .error errs
      | _ => .error [⟨[], .invalidFormat, "expected a nested mapping", v⟩]

/-- Coerce the elements of a FixedSequence independently against the declared
element specs (§4.1), starting at element index `i`; returns the collected
errors (each under its index's sub-path) and the coerced values of the
successful elements. -/
def coerceElems (specs : List TypeSpec) (elems : List Value) (i : Nat) :
    List FieldError × List Value :=
  match specs, elems with
  | [], _ => ([], [])
  | _ :: _, [] => ([], [])
  | sp :: sps, el :: els =>
      let rest := coerceElems sps els (i + 1)
      match coerce sp el with
      | .ok w => (rest.1, w :: rest.2)
      | .error errs => (errs.map (underPath (toString i)) ++ rest.1, rest.2)

/-- Modelled from the spec: process one field (§4.3 steps 1-5): resolve the
effective input; a missing required field with no default records
`MissingField`; a missing field with a default uses the static default or
invokes the generator (defaults are not passed through coercion); a present
value is coerced and then run through the field's validators.  A `computed`
field is skipped here entirely.  Returns the field's errors (under the
field's path) and its assembled entry, if any. -/
def processField (f : FieldDescriptor) (m : RawMapping) :
    List FieldError × Option (String × Value) :=
  match f.computed with
  | some _ => ([], none)
  | none =>
      match resolveInput f m with
      | none =>
          match f.default with
          | some (.inl d) => ([], some (f.name, d))
          | some (.inr gen) => ([], some (f.name, gen ()))
          | none =>
              if f.required then
                ([⟨[f.name], .missingField, "required field is missing", .vNull⟩], none)
              else ([], none)
      | some v =>
          match coerce f.declared_type v with
          | .error errs => (errs.map (underPath f.name), none)
          | .ok w =>
              match runValidators f.validators w with
              | .ok w' => ([], some (f.name, w'))
              | .error msg => ([⟨[f.name], .valueError, msg, w⟩], none)

/-- Process the fields in declaration order with error collection deferred to
the end (§4.3): each field's errors are appended, never short-circuiting. -/
def processFields (fields : List FieldDescriptor) (m : RawMapping) :
    List FieldError × Instance :=
  match fields with
  | [] => ([], [])
  | f :: fs =>
      let here := processField f m
      let rest := processFields fs m
      (here.1 ++ rest.1,
       match here.2 with
       | some kv => kv :: rest.2
       | none => rest.2)

/-- Modelled from the spec: the validation engine (§4.3),
`validate(schema, raw_mapping)`.  All per-field errors of one call are
accumulated and returned together; model-level validators run only if zero
field-level errors were recorded; if the error list is empty every computed
field is evaluated and the instance assembled, otherwise the aggregated
ValidationError is returned. -/
def validate (s : Schema) (m : RawMapping) : Except (List FieldError) Instance :=
  match s with
  | ⟨_, fields, mvals⟩ =>
      match processFields fields m with
      | ([], env) =>
          match runModelValidators mvals env with
          | [] => .ok (evalComputed fields env)
          | e :: es => .error (e :: es)
      | (e :: es, _) => .error (e :: es)

end

mutual

/-- Serialization helper (§4.4): recursively unwrap nested ValidatedInstances
(and instances inside fixed sequences) into plain nested mappings, guided by
the declared type. -/
def unwrapValue (t : TypeSpec) (v : Value) : Value :=
  match t with
  | .prim _ => v
  | .fixedSeq specs =>
      match v with
      | .vSeq els => .vSeq (unwrapElems specs els)
      | _ => v
  | .nested s =>
      match v with
      | .vInst inst => .vMap (to_mapping s inst)
      | _ => v

/-- Unwrap the elements of a fixed sequence against the element specs. -/
def unwrapElems (specs : List TypeSpec) (els : List Value) : List Value :=
  match specs, els with
  | [], rest => rest
  | _ :: _, [] => []
  | sp :: sps, el :: rest => unwrapValue sp el :: unwrapElems sps rest

/-- Walk the fields in schema declaration order, emitting an entry for every
field (computed fields included) present in the instance. -/
def to_mappingFields (fields : List FieldDescriptor) (inst : Instance) :
    RawMapping :=
  match fields with
  | [] => []
  | f :: fs =>
      match lookupKey inst f.name with
      | some v => (f.name, unwrapValue f.declared_type v) :: to_mappingFields fs inst
      | none => to_mappingFields fs inst

/-- Modelled from the spec: `to_mapping(instance)` (§4.4) walks fields in
schema declaration order, recursively unwrapping nested ValidatedInstances
into plain nested mappings. -/
def to_mapping (s : Schema) (inst : Instance) : RawMapping :=
  match s with
  | ⟨_, fields, _⟩ => to_mappingFields fields inst

end

/-- Decimal digit character of `n % 10`. -/
def digitChar (n : Nat) : Char := Char.ofNat (48 + n % 10)

/-- Decimal digits of a natural number, with explicit recursion fuel so the
definition is structurally recursive. -/
def natDigits (fuel n : Nat) : List Char :=
  match fuel with
  | 0 => []
  | fuel' + 1 =>
      if n < 10 then [digitChar n]
      else natDigits fuel' (n / 10) ++ [digitChar (n % 10)]

/-- Canonical decimal rendering of a natural number. -/
def renderNat (n : Nat) : String := String.mk (natDigits (n + 1) n)

/-- Canonical decimal rendering of an integer. -/
def renderInt (i : Int) : String :=
  match i with
  | .ofNat n => renderNat n
  | .negSucc m => "-" ++ renderNat (m + 1)

/-- Left-pad a digit string with zeros to the given width. -/
def padZeros (w : Nat) (s : String) : String :=
  String.mk (List.replicate (w - s.length) '0') ++ s

/-- Canonical rendering of a datetime: ISO-8601 text for civil timestamps,
the raw number for epoch values. -/
def renderDatetime (d : Datetime) : String :=
  match d with
  | .civil y mo dy h mi s =>
      "\"" ++ padZeros 4 (renderNat y) ++ "-" ++ padZeros 2 (renderNat mo) ++ "-"
        ++ padZeros 2 (renderNat dy) ++ "T" ++ padZeros 2 (renderNat h) ++ ":"
        ++ padZeros 2 (renderNat mi) ++ ":" ++ padZeros 2 (renderNat s) ++ "Z\""
  | .epoch n => renderInt n

mutual

/-- Canonical, deterministic text encoding of a value (§4.4): stable key
order (schema declaration order is preserved by `to_mapping`), no whitespace. -/
def renderValue (v : Value) : String :=
  match v with
  | .vStr s => "\"" ++ s ++ "\""
  | .vInt n => renderInt n
  | .vBool b => if b then "true" else "false"
  | .vNull => "null"
  | .vDatetime d => renderDatetime d
  | .vSeq els => "[" ++ renderList els ++ "]"
  | .vMap kvs => "\x7b" ++ renderPairs kvs ++ "\x7d"
  | .vInst kvs => "\x7b" ++ renderPairs kvs ++ "\x7d"

/-- Render sequence elements, comma-separated. -/
def renderList (els : List Value) : String :=
  match els with
  | [] => ""
  | v :: rest =>
      renderValue v ++ (if rest.isEmpty then "" else ",") ++ renderList rest

/-- Render mapping entries as `"key":value`, comma-separated. -/
def renderPairs (kvs : List (String × Value)) : String :=
  match kvs with
  | [] => ""
  | (k, v) :: rest =>
      "\"" ++ k ++ "\":" ++ renderValue v ++
        (if rest.isEmpty then "" else ",") ++ renderPairs rest

end

/-- Modelled from the spec: `to_text(instance)` (§4.4) is `to_mapping`
followed by the canonical deterministic text encoding. -/
def to_text (s : Schema) (inst : Instance) : String :=
  renderValue (.vMap (to_mapping s inst))

/-- From `src/pydantic.ipynb`: the `id` field's default generator
`lambda: uuid.uuid4().hex`.  Modelled from the spec: default-generator
functions must be side-effect-free and treated as pure (§5), so the generator
is modelled as a pure function returning a fixed 32-character hex string. -/
def deliveryIdDefault : Unit → Value := fun _ =>
  .vStr "5fad9b7a66b14ca59a9be1e4e1f0a3d2"

/-- From `src/pydantic.ipynb`: `Delivery.volume`, the computed field
`self.dimensions[0] * self.dimensions[1] * self.dimensions[2]`. -/
def volumeCompute : List (String × Value) → Value := fun env =>
  match lookupKey env "dimensions" with
  | some (.vSeq [.vInt a, .vInt b, .vInt c]) => .vInt (a * b * c)
  | _ => .vNull

/-- From `src/pydantic.ipynb`: the declared type of `Delivery.dimensions`,
`Tuple[int, int, int]` — a FixedSequence of three integer element specs. -/
def dimensionsSpec : TypeSpec := .fixedSeq [.prim .pInt, .prim .pInt, .prim .pInt]

/-- From `src/pydantic.ipynb`: the `Delivery.id` field descriptor with the
uuid4-hex default factory. -/
def idField : FieldDescriptor :=
  { name := "id", declared_type := .prim .pString, required := false,
    default := some (.inr deliveryIdDefault), alias_name := none,
    validators := [], computed := none }

/-- From `src/pydantic.ipynb`: the `Delivery.timestamp` field descriptor. -/
def timestampField : FieldDescriptor :=
  { name := "timestamp", declared_type := .prim .pDatetime, required := true,
    default := none, alias_name := none, validators := [], computed := none }

/-- From `src/pydantic.ipynb`: the `Delivery.dimensions` field descriptor. -/
def dimensionsField : FieldDescriptor :=
  { name := "dimensions", declared_type := dimensionsSpec, required := true,
    default := none, alias_name := none, validators := [], computed := none }

/-- From `src/pydantic.ipynb`: the `Delivery.volume` computed-field
descriptor. -/
def volumeField : FieldDescriptor :=
  { name := "volume", declared_type := .prim .pInt, required := false,
    default := none, alias_name := none, validators := [],
    computed := some volumeCompute }

/-- From `src/pydantic.ipynb`: the `Delivery` model — `id: str` with a
uuid4-hex default factory, `timestamp: datetime`,
`dimensions: Tuple[int, int, int]`, and the computed field `volume`. -/
def DeliverySchema : Schema :=
  { name := "Delivery"
    fields := [idField, timestampField, dimensionsField, volumeField]
    modelValidators := [] }

/-- From `src/pydantic.ipynb`: `User.validate_account_id` — raises
`ValueError("account_id has to be a positive integer")` when the value is
negative (`if value < 0`), and returns the value unchanged otherwise. -/
def accountIdValidator : Value → Except String Value := fun v =>
  match v with
  | .vInt n =>
      if n < 0 then .error "account_id has to be a positive integer"
      else .ok (.vInt n)
  | w => .ok w

/-- From `src/pydantic.ipynb`: the `User.username` field descriptor. -/
def usernameField : FieldDescriptor :=
  { name := "username", declared_type := .prim .pString, required := true,
    default := none, alias_name := none, validators := [], computed := none }

/-- From `src/pydantic.ipynb`: the `User.account_id` field descriptor with
the attached custom validator. -/
def accountIdField : FieldDescriptor :=
  { name := "account_id", declared_type := .prim .pInt, required := true,
    default := none, alias_name := none, validators := [accountIdValidator],
    computed := none }

/-- From `src/pydantic.ipynb`: the `User.delivery` field descriptor, a
nested-schema field. -/
def deliveryField : FieldDescriptor :=
  { name := "delivery", declared_type := .nested DeliverySchema,
    required := true, default := none, alias_name := none, validators := [],
    computed := none }

/-- From `src/pydantic.ipynb`: the `User` model — `username: str`,
`account_id: int` with the custom validator, `delivery: Delivery`. -/
def UserSchema : Schema :=
  { name := "User"
    fields := [usernameField, accountIdField, deliveryField]
    modelValidators := [] }

/-- From `src/pydantic.ipynb`: the `Settings.auth_key` field descriptor,
declared with `alias='AUTH_KEY'` (the notebook notes the alias is
case-insensitive). -/
def authKeyField : FieldDescriptor :=
  { name := "auth_key", declared_type := .prim .pString, required := true,
    default := none, alias_name := some "AUTH_KEY", validators := [],
    computed := none }

/-- From `src/pydantic.ipynb`: the `Settings.api_key` field descriptor
(`api_key: str = Field()`, no alias). -/
def apiKeyField : FieldDescriptor :=
  { name := "api_key", declared_type := .prim .pString, required := true,
    default := none, alias_name := none, validators := [], computed := none }

/-- From `src/pydantic.ipynb`: the `Settings` model — `auth_key: str` with
alias `AUTH_KEY`, `api_key: str`. -/
def SettingsSchema : Schema :=
  { name := "Settings"
    fields := [authKeyField, apiKeyField]
    modelValidators := [] }

/-- From `src/pydantic.ipynb`: the raw input of `valid_delivery`. -/
def validDeliveryRaw : RawMapping :=
  [("timestamp", .vStr "2020-01-02T03:04:05Z"),
   ("dimensions", .vSeq [.vInt 10, .vInt 20, .vInt 30])]

/-- The validated instance produced for `valid_delivery`. -/
def validDeliveryInstance : Instance :=
  [("id", .vStr "5fad9b7a66b14ca59a9be1e4e1f0a3d2"),
   ("timestamp", .vDatetime (.civil 2020 1 2 3 4 5)),
   ("dimensions", .vSeq [.vInt 10, .vInt 20, .vInt 30]),
   ("volume", .vInt 6000)]

/-- From `src/pydantic.ipynb`: the raw input of `invalid_delivery`
(`timestamp="July 4th, 1776"`). -/
def invalidDeliveryRaw : RawMapping :=
  [("timestamp", .vStr "July 4th, 1776"),
   ("dimensions", .vSeq [.vInt 10, .vInt 20, .vInt 30])]

/-- From `src/pydantic.ipynb`: the raw input of `valid_user` with the
`Delivery` sub-input supplied as a nested mapping, and `account_id`
parametrized so the validator's boundary can be stated. -/
def userRaw (accountId : Int) : RawMapping :=
  [("username", .vStr "johndoe"),
   ("account_id", .vInt accountId),
   ("delivery", .vMap validDeliveryRaw)]

/-- The validated instance produced for `userRaw accountId` when the
validator accepts. -/
def userInstance (accountId : Int) : Instance :=
  [("username", .vStr "johndoe"),
   ("account_id", .vInt accountId),
   ("delivery", .vInst validDeliveryInstance)]

/-- A `User` raw input whose `Delivery` sub-input has an unparseable
timestamp (the spec's §8 nested-propagation scenario). -/
def userBadDeliveryRaw : RawMapping :=
  [("username", .vStr "johndoe"),
   ("account_id", .vInt 123),
   ("delivery", .vMap invalidDeliveryRaw)]

example : validate DeliverySchema validDeliveryRaw = .ok validDeliveryInstance := rfl

example : validate UserSchema (userRaw 123) = .ok (userInstance 123) := rfl

theorem processFields_nil (m : RawMapping) : processFields [] m = ([], []) := rfl

theorem processFields_cons (f : FieldDescriptor) (fs : List FieldDescriptor)
    (m : RawMapping) :
    processFields (f :: fs) m =
      ((processField f m).1 ++ (processFields fs m).1,
       match (processField f m).2 with
       | some kv => kv :: (processFields fs m).2
       | none => (processFields fs m).2) := rfl

theorem validate_mk (nm : String) (fields : List FieldDescriptor)
    (mv : List (List (String × Value) → Except String Unit)) (m : RawMapping) :
    validate ⟨nm, fields, mv⟩ m =
      (match processFields fields m with
       | ([], env) =>
           match runModelValidators mv env with
           | [] => .ok (evalComputed fields env)
           | e :: es => .error (e :: es)
       | (e :: es, _) => .error (e :: es)) := rfl

theorem processField_present (f : FieldDescriptor) (m : RawMapping)
    (v w : Value) (hc : f.computed = none) (hres : resolveInput f m = some v)
    (hco : coerce f.declared_type v = .ok w) :
    processField f m =
      (match runValidators f.validators w with
       | .ok w' => ([], some (f.name, w'))
       | .error msg => ([⟨[f.name], .valueError, msg, w⟩], none)) := by
  simp [processField, hc, hres, hco]

/-- C4: computed fields are evaluated only after all other fields validate,
reading previously validated fields: validating `Delivery` on
`dimensions=[10,20,30]` succeeds and the resulting instance contains
`volume = 6000`; a `volume` key supplied in the raw input is never accepted —
it is ignored and the field is derived anyway. -/
theorem computed_volume_evaluated_after_validation :
    validate DeliverySchema validDeliveryRaw = .ok validDeliveryInstance ∧
    lookupKey validDeliveryInstance "volume" = some (.vInt 6000) ∧
    validate DeliverySchema (("volume", .vInt 999) :: validDeliveryRaw) =
      .ok validDeliveryInstance := ⟨rfl, rfl, rfl⟩

/-- C5: datetime coercion succeeds exactly on the declared acceptance set —
an already-typed datetime, an ISO-8601 string, or a Unix-epoch numeric
value — and fails with `InvalidFormat` on every other input; in particular
`"2020-01-02T03:04:05Z"` coerces and `"July 4th, 1776"` is rejected as an
`InvalidFormat` failure on the `timestamp` field. -/
theorem datetime_coercion_acceptance_set :
    (∀ v : Value, primResultKind (coercePrim .pDatetime v) =
      (if isDatetimeAcceptable v then none else some .invalidFormat)) ∧
    coercePrim .pDatetime (.vStr "2020-01-02T03:04:05Z") =
      .ok (.vDatetime (.civil 2020 1 2 3 4 5)) ∧
    validate DeliverySchema invalidDeliveryRaw =
      .error [⟨["timestamp"], .invalidFormat,
               "not a valid ISO-8601 datetime string", .vStr "July 4th, 1776"⟩] := by
  refine ⟨fun v => ?_, rfl, rfl⟩
  cases v
  case vStr s =>
    cases hp : parseISO8601 s <;>
      simp [coercePrim, primResultKind, isDatetimeAcceptable, hp]
  all_goals simp [coercePrim, primResultKind, isDatetimeAcceptable]

/-- C6: nested-schema error propagation — validating `User` with a `Delivery`
sub-input whose timestamp is unparseable yields a ValidationError with a
single entry whose field path is `["delivery", "timestamp"]`. -/
theorem nested_error_path_prepended :
    validate UserSchema userBadDeliveryRaw =
      .error [⟨["delivery", "timestamp"], .invalidFormat,
               "not a valid ISO-8601 datetime string", .vStr "July 4th, 1776"⟩] := rfl

/-- C8: FixedSequence coercion of an n-element spec fails with
`ArityMismatch` for every input sequence whose length differs from n, and
coerces elements independently, collecting per-element failures under that
index's sub-path: the three-integer spec rejects lengths 2 and 4 with
`ArityMismatch` and rejects `[10, "x", 30]` with exactly one `InvalidFormat`
error at path index 1. -/
theorem fixed_sequence_arity_and_element_errors :
    (∀ (specs : List TypeSpec) (elems : List Value),
      elems.length ≠ specs.length →
      coerce (.fixedSeq specs) (.vSeq elems) =
        .error [⟨[], .arityMismatch, "sequence has the wrong number of elements",
                 .vSeq elems⟩]) ∧
    coerce dimensionsSpec (.vSeq [.vInt 1, .vInt 2]) =
      .error [⟨[], .arityMismatch, "sequence has the wrong number of elements",
               .vSeq [.vInt 1, .vInt 2]⟩] ∧
    coerce dimensionsSpec (.vSeq [.vInt 1, .vInt 2, .vInt 3, .vInt 4]) =
      .error [⟨[], .arityMismatch, "sequence has the wrong number of elements",
               .vSeq [.vInt 1, .vInt 2, .vInt 3, .vInt 4]⟩] ∧
    coerce dimensionsSpec (.vSeq [.vInt 10, .vStr "x", .vInt 30]) =
      .error [⟨["1"], .invalidFormat, "expected an integer", .vStr "x"⟩] := by
  refine ⟨fun specs elems h => ?_, rfl, rfl, rfl⟩
  simp [coerce, h]

theorem fixed_sequence_arity_witness :
    coerce (.fixedSeq [.prim .pInt]) (.vSeq []) =
      .error [⟨[], .arityMismatch, "sequence has the wrong number of elements",
               .vSeq []⟩] :=
  fixed_sequence_arity_and_element_errors.1 [.prim .pInt] [] (by decide)

/-- C7: alias lookup is case-insensitive — a field declared with an alias
finds its effective input under the alias regardless of the input key's
letter case, and `Settings` (alias `AUTH_KEY`) validates successfully with
raw key `auth_key`, `Auth_Key`, or `AUTH_KEY`. -/
theorem alias_lookup_case_insensitive :
    (∀ (f : FieldDescriptor) (a k : String) (v : Value) (rest : RawMapping),
      f.alias_name = some a → lowerStr k = lowerStr a →
      resolveInput f ((k, v) :: rest) = some v) ∧
    validate SettingsSchema
        [("auth_key", .vStr "auth_key!"), ("api_key", .vStr "api_key!!!")] =
      .ok [("auth_key", .vStr "auth_key!"), ("api_key", .vStr "api_key!!!")] ∧
    validate SettingsSchema
        [("Auth_Key", .vStr "auth_key!"), ("api_key", .vStr "api_key!!!")] =
      .ok [("auth_key", .vStr "auth_key!"), ("api_key", .vStr "api_key!!!")] ∧
    validate SettingsSchema
        [("AUTH_KEY", .vStr "auth_key!"), ("api_key", .vStr "api_key!!!")] =
      .ok [("auth_key", .vStr "auth_key!"), ("api_key", .vStr "api_key!!!")] := by
  refine ⟨fun f a k v rest ha hk => ?_, rfl, rfl, rfl⟩
  simp [resolveInput, ha, lookupKeyCI, hk]

theorem alias_lookup_case_insensitive_witness :
    resolveInput authKeyField [("auth_key", .vStr "x")] = some (.vStr "x") :=
  alias_lookup_case_insensitive.1 authKeyField "AUTH_KEY" "auth_key"
    (.vStr "x") [] rfl (by decide)

/-- A small auxiliary validator used by the aggregation scenario of §8: it
rejects negative integers with a `ValueError`-kind failure. -/
def nonNegativeValidator : Value → Except String Value := fun v =>
  match v with
  | .vInt n => if n < 0 then .error "must be non-negative" else .ok v
  | w => .ok w

/-- The spec's §8 aggregation scenario: a schema with two required fields and
a third field carrying a custom validator. -/
def aggSchema : Schema :=
  { name := "Agg"
    fields := [
      { name := "alpha", declared_type := .prim .pString, required := true,
        default := none, alias_name := none, validators := [], computed := none },
      { name := "beta", declared_type := .prim .pInt, required := true,
        default := none, alias_name := none, validators := [], computed := none },
      { name := "gamma", declared_type := .prim .pInt, required := true,
        default := none, alias_name := none, validators := [nonNegativeValidator],
        computed := none } ]
    modelValidators := [] }

/-- The §8 aggregation scenario with the offending fields declared in a
different order. -/
def aggSchemaReordered : Schema :=
  { name := "AggReordered"
    fields := [
      { name := "gamma", declared_type := .prim .pInt, required := true,
        default := none, alias_name := none, validators := [nonNegativeValidator],
        computed := none },
      { name := "alpha", declared_type := .prim .pString, required := true,
        default := none, alias_name := none, validators := [], computed := none },
      { name := "beta", declared_type := .prim .pInt, required := true,
        default := none, alias_name := none, validators := [], computed := none } ]
    modelValidators := [] }

/-- A raw mapping missing the two required fields `alpha` and `beta` and
failing the custom validator on `gamma`. -/
def aggRaw : RawMapping := [("gamma", .vInt (-7))]

/-- C1: a single `validate` call accumulates every per-field error and
returns them together — the error list is the concatenation of each field's
own errors, never cut short at the first failure — and the §8 scenario (two
missing required fields plus one validator failure) yields exactly three
entries, one per offending field, in either declaration order. -/
theorem validate_accumulates_all_field_errors :
    (∀ (fields : List FieldDescriptor) (m : RawMapping),
      (processFields fields m).1 =
        fields.foldr (fun f acc => (processField f m).1 ++ acc) []) ∧
    validate aggSchema aggRaw =
      .error [⟨["alpha"], .missingField, "required field is missing", .vNull⟩,
              ⟨["beta"], .missingField, "required field is missing", .vNull⟩,
              ⟨["gamma"], .valueError, "must be non-negative", .vInt (-7)⟩] ∧
    validate aggSchemaReordered aggRaw =
      .error [⟨["gamma"], .valueError, "must be non-negative", .vInt (-7)⟩,
              ⟨["alpha"], .missingField, "required field is missing", .vNull⟩,
              ⟨["beta"], .missingField, "required field is missing", .vNull⟩] := by
  refine ⟨fun fields m => ?_, rfl, rfl⟩
  induction fields with
  | nil => rfl
  | cons f fs ih => simp [processFields_cons, ih]

theorem resolveInput_congr (f : FieldDescriptor) (m₁ m₂ : RawMapping)
    (h : ∀ k, lookupKey m₁ k = lookupKey m₂ k)
    (hci : ∀ k, lookupKeyCI m₁ k = lookupKeyCI m₂ k) :
    resolveInput f m₁ = resolveInput f m₂ := by
  cases ha : f.alias_name <;> simp [resolveInput, ha, h, hci]

theorem processField_congr (f : FieldDescriptor) (m₁ m₂ : RawMapping)
    (h : ∀ k, lookupKey m₁ k = lookupKey m₂ k)
    (hci : ∀ k, lookupKeyCI m₁ k = lookupKeyCI m₂ k) :
    processField f m₁ = processField f m₂ := by
  simp only [processField, resolveInput_congr f m₁ m₂ h hci]

theorem processFields_congr (fields : List FieldDescriptor) (m₁ m₂ : RawMapping)
    (h : ∀ k, lookupKey m₁ k = lookupKey m₂ k)
    (hci : ∀ k, lookupKeyCI m₁ k = lookupKeyCI m₂ k) :
    processFields fields m₁ = processFields fields m₂ := by
  induction fields with
  | nil => rfl
  | cons f fs ih =>
      rw [processFields_cons, processFields_cons,
          processField_congr f m₁ m₂ h hci, ih]

/-- C2: the engine's output depends on the raw mapping only through key
lookup — two mappings indistinguishable under (case-sensitive and
case-insensitive) lookup give bit-identical outputs, so the result never
relies on the iteration order of the input mapping, and as a pure function
identical `(schema, raw_mapping)` pairs trivially give identical results
(default generators are modelled as pure, per §5). -/
theorem validate_deterministic_in_mapping_lookup :
    ∀ (s : Schema) (m₁ m₂ : RawMapping),
      (∀ k, lookupKey m₁ k = lookupKey m₂ k) →
      (∀ k, lookupKeyCI m₁ k = lookupKeyCI m₂ k) →
      validate s m₁ = validate s m₂ := by
  intro s m₁ m₂ h hci
  cases s with
  | mk nm fields mv =>
      rw [validate_mk, validate_mk, processFields_congr fields m₁ m₂ h hci]

/-- The raw input of `valid_delivery` with its two keys listed in the
opposite order. -/
def validDeliveryRawReordered : RawMapping :=
  [("dimensions", .vSeq [.vInt 10, .vInt 20, .vInt 30]),
   ("timestamp", .vStr "2020-01-02T03:04:05Z")]

theorem validate_deterministic_witness :
    validate DeliverySchema validDeliveryRawReordered =
      validate DeliverySchema validDeliveryRaw := by
  apply validate_deterministic_in_mapping_lookup
  · intro k
    by_cases ht : "timestamp" = k
    · subst ht; rfl
    · by_cases hd : "dimensions" = k
      · subst hd; rfl
      · simp [lookupKey, validDeliveryRaw, validDeliveryRawReordered, ht, hd]
  · intro k
    by_cases ht : lowerStr "timestamp" = lowerStr k
    · by_cases hd : lowerStr "dimensions" = lowerStr k
      · exact absurd (ht.trans hd.symm) (by decide)
      · simp [lookupKeyCI, validDeliveryRaw, validDeliveryRawReordered, ht, hd]
    · by_cases hd : lowerStr "dimensions" = lowerStr k
      · simp [lookupKeyCI, validDeliveryRaw, validDeliveryRawReordered, ht, hd]
      · simp [lookupKeyCI, validDeliveryRaw, validDeliveryRawReordered, ht, hd]

/-- C9: the custom validator on `User.account_id` rejects exactly the
strictly negative inputs (despite its message saying "positive"): validation
of a `User` input is a `ValueError`-kind failure on `account_id` when the
supplied integer is negative and succeeds otherwise; in particular the
boundary input `account_id = 0` is accepted and `account_id = -123` (the
notebook's `invalid_user`) is rejected. -/
theorem account_id_validator_boundary :
    (∀ n : Int, validate UserSchema (userRaw n) =
      if n < 0 then
        .error [⟨["account_id"], .valueError,
                 "account_id has to be a positive integer", .vInt n⟩]
      else .ok (userInstance n)) ∧
    validate UserSchema (userRaw 0) = .ok (userInstance 0) ∧
    validate UserSchema (userRaw (-123)) =
      .error [⟨["account_id"], .valueError,
               "account_id has to be a positive integer", .vInt (-123)⟩] := by
  refine ⟨fun n => ?_, rfl, rfl⟩
  have hu : processField usernameField (userRaw n) =
      ([], some ("username", .vStr "johndoe")) := rfl
  have hd : processField deliveryField (userRaw n) =
      ([], some ("delivery", .vInst validDeliveryInstance)) := rfl
  have hacc : processField accountIdField (userRaw n) =
      (if n < 0 then
        ([⟨["account_id"], .valueError,
           "account_id has to be a positive integer", .vInt n⟩], none)
      else ([], some ("account_id", .vInt n))) := by
    rw [processField_present accountIdField (userRaw n) (.vInt n) (.vInt n)
          rfl rfl rfl]
    by_cases hn : n < 0 <;>
      simp [accountIdField, runValidators, accountIdValidator, hn]
  have hs : UserSchema =
      ⟨"User", [usernameField, accountIdField, deliveryField], []⟩ := rfl
  rw [hs, validate_mk, processFields_cons, processFields_cons,
      processFields_cons, processFields_nil, hu, hacc, hd]
  have hcu : usernameField.computed = none := rfl
  have hca : accountIdField.computed = none := rfl
  have hcd : deliveryField.computed = none := rfl
  by_cases hn : n < 0 <;>
    simp [hn, runModelValidators, evalComputed, hcu, hca, hcd, userInstance]

/-- Whether the first list is a prefix of the second (character matching for
the substring check on serialized text). -/
def isPrefOf (needle hay : List Char) : Bool :=
  match needle, hay with
  | [], _ => true
  | _ :: _, [] => false
  | a :: as, b :: bs => a == b && isPrefOf as bs

/-- Whether the needle occurs as a contiguous run inside the hay. -/
def hasInfix (hay needle : List Char) : Bool :=
  match hay with
  | [] => isPrefOf needle []
  | _ :: rest => isPrefOf needle hay || hasInfix rest needle

/-- Whether `needle` occurs as a substring of `hay`. -/
def textContains (hay needle : String) : Bool :=
  hasInfix hay.toList needle.toList

theorem mem_evalComputed_mono (fields : List FieldDescriptor)
    (env : Instance) (e : String × Value) (he : e ∈ env) :
    e ∈ evalComputed fields env := by
  induction fields generalizing env with
  | nil => exact he
  | cons f fs ih =>
      cases hc : f.computed with
      | some g =>
          rw [show evalComputed (f :: fs) env =
                evalComputed fs (env ++ [(f.name, g env)]) by
              simp [evalComputed, hc]]
          exact ih _ (List.mem_append_left _ he)
      | none =>
          rw [show evalComputed (f :: fs) env = evalComputed fs env by
              simp [evalComputed, hc]]
          exact ih _ he


theorem evalComputed_mem_of_computed (fields : List FieldDescriptor)
    (f : FieldDescriptor) (g : List (String × Value) → Value)
    (env : Instance) (hmem : f ∈ fields) (hg : f.computed = some g) :
    ∃ v, (f.name, v) ∈ evalComputed fields env := by
  induction fields generalizing env with
  | nil => cases hmem
  | cons f' fs ih =>
      rcases List.mem_cons.mp hmem with rfl | htail
      · refine ⟨g env, ?_⟩
        rw [show evalComputed (f :: fs) env =
              evalComputed fs (env ++ [(f.name, g env)]) by
            simp [evalComputed, hg]]
        exact mem_evalComputed_mono fs _ _
          (List.mem_append_right _ (List.mem_singleton.mpr rfl))
      · cases hc : f'.computed with
        | some g' =>
            rw [show evalComputed (f' :: fs) env =
                  evalComputed fs (env ++ [(f'.name, g' env)]) by
                simp [evalComputed, hc]]
            exact ih _ htail
        | none =>
            rw [show evalComputed (f' :: fs) env = evalComputed fs env by
                simp [evalComputed, hc]]
            exact ih _ htail

theorem lookupKey_isSome_of_mem (env : Instance) (k : String) (v : Value)
    (hmem : (k, v) ∈ env) : ∃ w, lookupKey env k = some w := by
  induction env with
  | nil => cases hmem
  | cons e rest ih =>
      rcases e with ⟨k', v'⟩
      by_cases hk : k' = k
      · exact ⟨v', by simp [lookupKey, hk]⟩
      · rcases List.mem_cons.mp hmem with heq | htail
        · cases heq; exact absurd rfl hk
        · rcases ih htail with ⟨w, hw⟩
          exact ⟨w, by simp [lookupKey, hk, hw]⟩

theorem to_mappingFields_mem (fields : List FieldDescriptor)
    (f : FieldDescriptor) (env : Instance) (w : Value)
    (hmem : f ∈ fields) (hl : lookupKey env f.name = some w) :
    (f.name, unwrapValue f.declared_type w) ∈ to_mappingFields fields env := by
  induction fields with
  | nil => cases hmem
  | cons f' fs ih =>
      rcases List.mem_cons.mp hmem with rfl | htail
      · rw [show to_mappingFields (f :: fs) env =
              (f.name, unwrapValue f.declared_type w) :: to_mappingFields fs env by
            simp [to_mappingFields, hl]]
        exact List.mem_cons_self _ _
      · cases hlf : lookupKey env f'.name with
        | some u =>
            rw [show to_mappingFields (f' :: fs) env =
                  (f'.name, unwrapValue f'.declared_type u) ::
                    to_mappingFields fs env by
                simp [to_mappingFields, hlf]]
            exact List.mem_cons_of_mem _ (ih htail)
        | none =>
            rw [show to_mappingFields (f' :: fs) env = to_mappingFields fs env by
                simp [to_mappingFields, hlf]]
            exact ih htail

/-- C10: serialization includes computed fields — a successfully validated
instance's plain-mapping serialization contains an entry for every computed
field of its schema, and concretely both the `Delivery` mapping and the
`Delivery`/`User` canonical text contain `volume = 6000`, even though
computed fields are never accepted as input keys. -/
theorem serialization_includes_computed_fields :
    (∀ (s : Schema) (m : RawMapping) (env : Instance) (f : FieldDescriptor),
      validate s m = .ok env → f ∈ s.fields → f.computed.isSome →
      ∃ v, (f.name, v) ∈ to_mapping s env) ∧
    lookupKey (to_mapping DeliverySchema validDeliveryInstance) "volume" =
      some (.vInt 6000) ∧
    textContains (to_text DeliverySchema validDeliveryInstance)
      "\"volume\":6000" = true ∧
    textContains (to_text UserSchema (userInstance 123))
      "\"volume\":6000" = true := by
  refine ⟨?_, rfl, rfl, rfl⟩
  intro s m env f hval hmem hcomp
  rcases s with ⟨nm, fields, mv⟩
  rw [validate_mk] at hval
  rcases hpf : processFields fields m with ⟨errs, env₀⟩
  cases errs with
  | cons e es => simp [hpf] at hval
  | nil =>
      cases hmv : runModelValidators mv env₀ with
      | cons e es => simp [hpf, hmv] at hval
      | nil =>
          simp [hpf, hmv] at hval
          rcases Option.isSome_iff_exists.mp hcomp with ⟨g, hg⟩
          rcases evalComputed_mem_of_computed fields f g env₀ hmem hg with ⟨v, hv⟩
          rw [hval] at hv
          rcases lookupKey_isSome_of_mem env f.name v hv with ⟨w, hw⟩
          exact ⟨unwrapValue f.declared_type w,
                 to_mappingFields_mem fields f env w hmem hw⟩

theorem serialization_includes_computed_fields_witness :
    ∃ v, ("volume", v) ∈ to_mapping DeliverySchema validDeliveryInstance :=
  serialization_includes_computed_fields.1 DeliverySchema validDeliveryRaw
    validDeliveryInstance volumeField rfl
    (.tail _ (.tail _ (.tail _ (.head _)))) rfl

/-- Validators that return every accepted value unchanged (they may still
reject). -/
def ValueIdValidators (gs : List (Value → Except String Value)) : Prop :=
  ∀ g ∈ gs, ∀ v w, g v = .ok w → w = v

/-- A field's default (static value or generator output) re-coerces to itself
under the field's declared type and passes the field's validators — the
condition under which spec §4.3 step 3's "defaults are trusted to already
match `declared_type`" survives serialization and re-validation. -/
def DefaultSafe (f : FieldDescriptor) : Prop :=
  match f.default with
  | none => True
  | some (.inl d) =>
      coerce f.declared_type (unwrapValue f.declared_type d) = .ok d ∧
      runValidators f.validators d = .ok d
  | some (.inr gen) =>
      coerce f.declared_type (unwrapValue f.declared_type (gen ())) = .ok (gen ()) ∧
      runValidators f.validators (gen ()) = .ok (gen ())

/-- An alias is harmless for serialization round-trips when every field name
it case-insensitively matches is the aliased field's own name (serialized
output is keyed by field names, so a clashing alias would misroute input on
re-validation). -/
def AliasOk (fields : List (FieldOf TypeSpec)) (f : FieldOf TypeSpec) : Prop :=
  ∀ a, f.alias_name = some a →
    ∀ g ∈ fields, lowerStr g.name = lowerStr a → g.name = f.name

/-- Every alias declared in the field list resolves only to its own field's
name. -/
def AliasesOk (fields : List (FieldOf TypeSpec)) : Prop :=
  ∀ f ∈ fields, AliasOk fields f

mutual

/-- Round-trip safety of a type spec: every schema reachable from it is
round-trip safe. -/
def SpecSafe : TypeSpec → Prop
  | .prim _ => True
  | .fixedSeq specs => SpecsSafe specs
  | .nested s => SchemaSafe s

/-- Round-trip safety of a list of element specs. -/
def SpecsSafe : List TypeSpec → Prop
  | [] => True
  | t :: ts => SpecSafe t ∧ SpecsSafe ts

/-- Round-trip safety of a schema: distinct field names, aliases that only
match their own field's name, and round-trip-safe fields. -/
def SchemaSafe : SchemaOf TypeSpec → Prop
  | ⟨_, fields, _⟩ =>
      (fields.map (fun f => f.name)).Nodup ∧ AliasesOk fields ∧
        FieldsSafe fields

/-- Round-trip safety of a list of field descriptors. -/
def FieldsSafe : List (FieldOf TypeSpec) → Prop
  | [] => True
  | f :: fs => FieldSafe f ∧ FieldsSafe fs

/-- Round-trip safety of one field: value-preserving validators, a safe
default, and a safe declared type. -/
def FieldSafe : FieldOf TypeSpec → Prop
  | f =>
      ValueIdValidators f.validators ∧
      DefaultSafe f ∧ SpecSafe f.declared_type

end

/-- A transforming (yet accepting) validator, as spec §4.3 step 5 allows:
it increments every integer it accepts. -/
def incValidator : Value → Except String Value := fun v =>
  match v with
  | .vInt k => .ok (.vInt (k + 1))
  | w => .ok w

/-- A schema with a transforming validator — a witness against the
unconditional round-trip property. -/
def incSchema : Schema :=
  ⟨"Inc", [⟨"n", .prim .pInt, true, none, none, [incValidator], none⟩], []⟩

/-- A schema whose static default does not match the declared type; §4.3
step 3 trusts defaults without coercion, so first validation succeeds. -/
def badDefaultSchema : Schema :=
  ⟨"BadDefault",
   [⟨"d", .prim .pInt, false, some (.inl (.vStr "oops")), none, [], none⟩], []⟩

/-- A schema where one field's alias case-insensitively matches another
field's name, misrouting input on re-validation of serialized output. -/
def aliasClashSchema : Schema :=
  ⟨"AliasClash",
   [⟨"a", .prim .pString, true, none, some "B", [], none⟩,
    ⟨"b", .prim .pInt, true, none, none, [], none⟩], []⟩

/-- An input on which `aliasClashSchema` validates successfully. -/
def aliasClashRaw : RawMapping := [("B", .vStr "x"), ("b", .vInt 7)]

/-- A schema whose static default violates the field's own validator;
defaults bypass coercion and validators on first validation (§4.3 step 3),
but a serialized default is re-validated as ordinary input. -/
def defaultFailsValidatorSchema : Schema :=
  ⟨"DefaultFailsValidator",
   [⟨"d", .prim .pInt, false, some (.inl (.vInt (-5))), none,
     [nonNegativeValidator], none⟩], []⟩

/-- A schema with two fields of the same name and different types: both read
the same input key, but serialization keeps only the first field's value
under that key. -/
def dupNameSchema : Schema :=
  ⟨"DupName",
   [⟨"x", .prim .pDatetime, true, none, none, [], none⟩,
    ⟨"x", .prim .pString, true, none, none, [], none⟩], []⟩

/-- An input on which `dupNameSchema` validates successfully (the string is
both ISO-8601-parseable and a plain string). -/
def dupNameRaw : RawMapping := [("x", .vStr "2020-01-02T03:04:05Z")]

/-- A schema whose static default is an ISO string for a datetime field: the
trusted default is stored as supplied, but on re-validation of serialized
output the string coerces to a typed datetime — a different value. -/
def retypedDefaultSchema : Schema :=
  ⟨"RetypedDefault",
   [⟨"t", .prim .pDatetime, false,
     some (.inl (.vStr "2020-01-02T03:04:05Z")), none, [], none⟩], []⟩

/-- C3 counterexample: the round-trip property fails as stated, and each part
forces one hypothesis of the amended claim.  (1) A transforming validator
(allowed by §4.3 step 5) makes `validate(schema, to_mapping(v))` succeed with
a value different from `v` even though no default-generator field is
involved; (2) a static default that does not match the declared type
(defaults are trusted, not coerced) makes re-validation fail outright;
(3) an alias that case-insensitively matches a different field's name
misroutes the serialized output on re-validation; (4) a default that
violates its own field's validator passes first validation (defaults bypass
validators) but fails re-validation; (5) two fields sharing one name
validate, but serialization collapses them to the first field's value, and
re-validation fails; (6) a well-meaning default of the wrong representation
(ISO string for a datetime field) round-trips to a successfully validated
but different value. -/
theorem round_trip_claim_counterexample :
    (validate incSchema [("n", .vInt 0)] = .ok [("n", .vInt 1)] ∧
     validate incSchema (to_mapping incSchema [("n", .vInt 1)]) =
       .ok [("n", .vInt 2)] ∧
     (Except.ok [("n", Value.vInt 2)] :
        Except (List FieldError) Instance) ≠ .ok [("n", .vInt 1)]) ∧
    (validate badDefaultSchema [] = .ok [("d", .vStr "oops")] ∧
     validate badDefaultSchema (to_mapping badDefaultSchema [("d", .vStr "oops")]) =
       .error [⟨["d"], .invalidFormat, "expected an integer", .vStr "oops"⟩]) ∧
    (validate aliasClashSchema aliasClashRaw =
       .ok [("a", .vStr "x"), ("b", .vInt 7)] ∧
     validate aliasClashSchema
         (to_mapping aliasClashSchema [("a", .vStr "x"), ("b", .vInt 7)]) =
       .error [⟨["a"], .invalidFormat, "expected a string", .vInt 7⟩]) ∧
    (validate defaultFailsValidatorSchema [] = .ok [("d", .vInt (-5))] ∧
     validate defaultFailsValidatorSchema
         (to_mapping defaultFailsValidatorSchema [("d", .vInt (-5))]) =
       .error [⟨["d"], .valueError, "must be non-negative", .vInt (-5)⟩]) ∧
    (validate dupNameSchema dupNameRaw =
       .ok [("x", .vDatetime (.civil 2020 1 2 3 4 5)),
            ("x", .vStr "2020-01-02T03:04:05Z")] ∧
     validate dupNameSchema
         (to_mapping dupNameSchema
           [("x", .vDatetime (.civil 2020 1 2 3 4 5)),
            ("x", .vStr "2020-01-02T03:04:05Z")]) =
       .error [⟨["x"], .invalidFormat, "expected a string",
                .vDatetime (.civil 2020 1 2 3 4 5)⟩]) ∧
    (validate retypedDefaultSchema [] =
       .ok [("t", .vStr "2020-01-02T03:04:05Z")] ∧
     validate retypedDefaultSchema
         (to_mapping retypedDefaultSchema [("t", .vStr "2020-01-02T03:04:05Z")]) =
       .ok [("t", .vDatetime (.civil 2020 1 2 3 4 5))] ∧
     (Except.ok [("t", Value.vDatetime (.civil 2020 1 2 3 4 5))] :
        Except (List FieldError) Instance) ≠
       .ok [("t", .vStr "2020-01-02T03:04:05Z")]) := by
  refine ⟨⟨rfl, rfl, ?_⟩, ⟨rfl, rfl⟩, ⟨rfl, rfl⟩, ⟨rfl, rfl⟩, ⟨rfl, rfl⟩,
          ⟨rfl, rfl, ?_⟩⟩
  · intro h
    injection h with h'
    simp at h'
  · intro h
    injection h with h'
    simp at h'

theorem validate_error_nonempty (s : Schema) (m : RawMapping)
    (es : List FieldError) (h : validate s m = .error es) : es ≠ [] := by
  intro hni
  subst hni
  rcases s with ⟨nm, fields, mv⟩
  rw [validate_mk] at h
  rcases hpf : processFields fields m with ⟨errs, env₀⟩
  cases errs with
  | nil =>
      cases hmv : runModelValidators mv env₀ with
      | nil => simp [hpf, hmv] at h
      | cons e es' => simp [hpf, hmv] at h
  | cons e errs' => simp [hpf] at h

theorem coerce_error_nonempty (t : TypeSpec) (v : Value)
    (es : List FieldError) (h : coerce t v = .error es) : es ≠ [] := by
  intro hni
  subst hni
  cases t with
  | prim k =>
      cases hk : coercePrim k v with
      | ok w => simp [coerce, hk] at h
      | error e => simp [coerce, hk] at h
  | fixedSeq specs =>
      cases v
      case vSeq elems =>
        by_cases hlen : elems.length = specs.length
        · rcases hce : coerceElems specs elems 0 with ⟨errs, vals⟩
          cases errs with
          | nil => simp [coerce, hlen, hce] at h
          | cons e es' => simp [coerce, hlen, hce] at h
        · simp [coerce, hlen] at h
      all_goals simp [coerce] at h
  | nested s' =>
      cases v
      case vMap mm =>
        cases hv : validate s' mm with
        | ok inst => simp [coerce, hv] at h
        | error errs =>
            simp [coerce, hv] at h
            exact validate_error_nonempty s' mm errs hv h
      all_goals simp [coerce] at h

theorem coercePrim_idem (k : PrimKind) (v w : Value)
    (h : coercePrim k v = .ok w) : coercePrim k w = .ok w := by
  cases k
  case pString =>
    cases v <;> simp [coercePrim] at h <;> subst h <;> simp [coercePrim]
  case pInt =>
    cases v <;> simp [coercePrim] at h <;> subst h <;> simp [coercePrim]
  case pBool =>
    cases v <;> simp [coercePrim] at h <;> subst h <;> simp [coercePrim]
  case pDatetime =>
    cases v
    case vStr s =>
      cases hp : parseISO8601 s with
      | none => simp [coercePrim, hp] at h
      | some d =>
          simp [coercePrim, hp] at h
          subst h
          simp [coercePrim]
    all_goals
      first
      | (simp [coercePrim] at h; subst h; simp [coercePrim])
      | simp [coercePrim] at h

theorem runValidators_id (gs : List (Value → Except String Value))
    (v w : Value) (hid : ValueIdValidators gs)
    (h : runValidators gs v = .ok w) : w = v := by
  induction gs generalizing v with
  | nil =>
      simp [runValidators] at h
      exact h.symm
  | cons g gs' ih =>
      cases hg : g v with
      | ok u =>
          have hu : u = v := hid g (List.mem_cons_self g gs') v u hg
          rw [show runValidators (g :: gs') v = runValidators gs' u by
                simp [runValidators, hg]] at h
          rw [hu] at h
          exact ih _ (fun g' hg' => hid g' (List.mem_cons_of_mem _ hg')) h
      | error msg => simp [runValidators, hg] at h

theorem coerceElems_ok_length (ts : List TypeSpec) (vs ws : List Value)
    (i : Nat) (h : coerceElems ts vs i = ([], ws))
    (hlen : vs.length = ts.length) : ws.length = ts.length := by
  induction ts generalizing vs ws i with
  | nil =>
      simp [coerceElems] at h
      simp [← h]
  | cons t ts' ih =>
      cases vs with
      | nil => simp at hlen
      | cons v vs' =>
          rcases hrest : coerceElems ts' vs' (i + 1) with ⟨errs', vals'⟩
          cases hc : coerce t v with
          | ok u =>
              rw [show coerceElems (t :: ts') (v :: vs') i = (errs', u :: vals') by
                    simp [coerceElems, hrest, hc]] at h
              injection h with h1 h2
              subst h1
              rw [← h2]
              simp [ih vs' vals' (i + 1) hrest (by simpa using hlen)]
          | error errs =>
              rw [show coerceElems (t :: ts') (v :: vs') i =
                    (errs.map (underPath (toString i)) ++ errs', vals') by
                    simp [coerceElems, hrest, hc]] at h
              injection h with h1 h2
              have herrs : errs = [] := by
                cases errs with
                | nil => rfl
                | cons e es' => simp at h1
              exact absurd herrs (coerce_error_nonempty t v errs hc)

theorem unwrapElems_length (ts : List TypeSpec) (ws : List Value)
    (h : ws.length = ts.length) : (unwrapElems ts ws).length = ts.length := by
  induction ts generalizing ws with
  | nil =>
      cases ws with
      | nil => simp [unwrapElems]
      | cons w ws' => simp at h
  | cons t ts' ih =>
      cases ws with
      | nil => simp at h
      | cons w ws' =>
          simp [unwrapElems]
          exact ih ws' (by simpa using h)

theorem lookupKey_append_of_some (a b : RawMapping) (k : String) (v : Value)
    (h : lookupKey a k = some v) : lookupKey (a ++ b) k = some v := by
  induction a with
  | nil => simp [lookupKey] at h
  | cons e rest ih =>
      rcases e with ⟨k', v'⟩
      by_cases hk : k' = k
      · simp [lookupKey, hk] at h ⊢
        exact h
      · simp only [List.cons_append, lookupKey, if_neg hk] at h ⊢
        exact ih h

theorem lookupKey_append_of_none (a b : RawMapping) (k : String)
    (h : lookupKey a k = none) : lookupKey (a ++ b) k = lookupKey b k := by
  induction a with
  | nil => simp [lookupKey]
  | cons e rest ih =>
      rcases e with ⟨k', v'⟩
      by_cases hk : k' = k
      · simp [lookupKey, hk] at h
      · simp only [List.cons_append, lookupKey, if_neg hk] at h ⊢
        exact ih h

theorem lookupKey_eq_none (env : RawMapping) (k : String)
    (h : k ∉ env.map Prod.fst) : lookupKey env k = none := by
  induction env with
  | nil => rfl
  | cons e rest ih =>
      rcases e with ⟨k', v'⟩
      simp only [List.map_cons, List.mem_cons, not_or] at h
      obtain ⟨h1, h2⟩ := h
      have h1' : k' ≠ k := fun hh => h1 hh.symm
      simp [lookupKey, h1', ih h2]

theorem processField_entry_name (f : FieldDescriptor) (m : RawMapping)
    (kv : String × Value) (h : (processField f m).2 = some kv) :
    kv.1 = f.name := by
  cases hcp : f.computed with
  | some g =>
      rw [show processField f m = ([], none) by simp [processField, hcp]] at h
      simp at h
  | none =>
      cases hres : resolveInput f m with
      | none =>
          cases hdef : f.default with
          | some dv =>
              cases dv with
              | inl d =>
                  rw [show processField f m = ([], some (f.name, d)) by
                        simp [processField, hcp, hres, hdef]] at h
                  injection h with h'
                  exact (congrArg Prod.fst h').symm
              | inr gen =>
                  rw [show processField f m = ([], some (f.name, gen ())) by
                        simp [processField, hcp, hres, hdef]] at h
                  injection h with h'
                  exact (congrArg Prod.fst h').symm
          | none =>
              by_cases hreq : f.required
              · rw [show processField f m =
                      ([⟨[f.name], .missingField, "required field is missing",
                         .vNull⟩], none) by
                      simp [processField, hcp, hres, hdef, hreq]] at h
                simp at h
              · rw [show processField f m = ([], none) by
                      simp [processField, hcp, hres, hdef, hreq]] at h
                simp at h
      | some v =>
          cases hco : coerce f.declared_type v with
          | error errs =>
              rw [show processField f m = (errs.map (underPath f.name), none) by
                    simp [processField, hcp, hres, hco]] at h
              simp at h
          | ok w =>
              cases hrv : runValidators f.validators w with
              | ok w' =>
                  rw [show processField f m = ([], some (f.name, w')) by
                        simp [processField, hcp, hres, hco, hrv]] at h
                  injection h with h'
                  exact (congrArg Prod.fst h').symm
              | error msg =>
                  rw [show processField f m =
                        ([⟨[f.name], .valueError, msg, w⟩], none) by
                        simp [processField, hcp, hres, hco, hrv]] at h
                  simp at h

theorem processFields_cons_eq (f : FieldDescriptor) (fs : List FieldDescriptor)
    (m : RawMapping) (es' : List FieldError) (env' : Instance)
    (hpf : processFields fs m = (es', env')) :
    processFields (f :: fs) m =
      ((processField f m).1 ++ es',
       match (processField f m).2 with
       | some kv => kv :: env'
       | none => env') := by
  rw [processFields_cons, hpf]

theorem processFields_keys (fields : List FieldDescriptor) (m : RawMapping)
    (es : List FieldError) (env : Instance)
    (h : processFields fields m = (es, env)) :
    ∀ e ∈ env, e.1 ∈ fields.map (fun g => g.name) := by
  induction fields generalizing es env with
  | nil =>
      rw [processFields_nil] at h
      injection h with h1 h2
      intro e he
      rw [← h2] at he
      cases he
  | cons f fs ih =>
      rcases hpf : processFields fs m with ⟨es', env'⟩
      rw [processFields_cons_eq f fs m es' env' hpf] at h
      injection h with h1 h2
      intro e he
      rw [← h2] at he
      cases hvo : (processField f m).2 with
      | some kv =>
          rw [hvo] at he
          simp only [List.map_cons, List.mem_cons]
          rcases List.mem_cons.mp he with rfl | htail
          · exact Or.inl (processField_entry_name f m e hvo)
          · exact Or.inr (ih es' env' hpf e htail)
      | none =>
          rw [hvo] at he
          exact List.mem_cons_of_mem _ (ih es' env' hpf e he)

theorem evalComputed_lookup (fields : List FieldDescriptor) (env' : Instance)
    (k : String) (hcond : ∀ g ∈ fields, g.computed.isSome → g.name ≠ k) :
    lookupKey (evalComputed fields env') k = lookupKey env' k := by
  induction fields generalizing env' with
  | nil => rfl
  | cons g fs ih =>
      cases hc : g.computed with
      | some gg =>
          rw [show evalComputed (g :: fs) env' =
                evalComputed fs (env' ++ [(g.name, gg env')]) by
              simp [evalComputed, hc]]
          rw [ih _ (fun g' hg' => hcond g' (List.mem_cons_of_mem _ hg'))]
          have hne : g.name ≠ k :=
            hcond g (List.mem_cons_self _ _) (by simp [hc])
          cases hl : lookupKey env' k with
          | some v => rw [lookupKey_append_of_some _ _ _ _ hl]
          | none =>
              rw [lookupKey_append_of_none _ _ _ hl]
              simp [lookupKey, hne]
      | none =>
          rw [show evalComputed (g :: fs) env' = evalComputed fs env' by
              simp [evalComputed, hc]]
          exact ih _ (fun g' hg' => hcond g' (List.mem_cons_of_mem _ hg'))

theorem to_mappingFields_keys (fields : List FieldDescriptor) (env : Instance) :
    ∀ e ∈ to_mappingFields fields env, e.1 ∈ fields.map (fun g => g.name) := by
  induction fields with
  | nil =>
      intro e he
      simp [to_mappingFields] at he
  | cons g fs ih =>
      intro e he
      cases hl : lookupKey env g.name with
      | some v =>
          rw [show to_mappingFields (g :: fs) env =
                (g.name, unwrapValue g.declared_type v) ::
                  to_mappingFields fs env by
              simp [to_mappingFields, hl]] at he
          simp only [List.map_cons, List.mem_cons]
          rcases List.mem_cons.mp he with rfl | ht
          · exact Or.inl rfl
          · exact Or.inr (ih e ht)
      | none =>
          rw [show to_mappingFields (g :: fs) env = to_mappingFields fs env by
              simp [to_mappingFields, hl]] at he
          exact List.mem_cons_of_mem _ (ih e he)

theorem to_mappingFields_lookup (fields : List FieldDescriptor)
    (f : FieldDescriptor) (env : Instance)
    (hnd : (fields.map (fun g => g.name)).Nodup) (hf : f ∈ fields) :
    lookupKey (to_mappingFields fields env) f.name =
      Option.map (unwrapValue f.declared_type) (lookupKey env f.name) := by
  induction fields with
  | nil => cases hf
  | cons g fs ih =>
      simp only [List.map_cons, List.nodup_cons] at hnd
      obtain ⟨hnotin, hnd'⟩ := hnd
      rcases List.mem_cons.mp hf with rfl | htail
      · cases hl : lookupKey env f.name with
        | some v =>
            rw [show to_mappingFields (f :: fs) env =
                  (f.name, unwrapValue f.declared_type v) ::
                    to_mappingFields fs env by
                simp [to_mappingFields, hl]]
            simp [lookupKey, hl]
        | none =>
            rw [show to_mappingFields (f :: fs) env = to_mappingFields fs env by
                simp [to_mappingFields, hl]]
            have hnone : lookupKey (to_mappingFields fs env) f.name = none := by
              apply lookupKey_eq_none
              intro hmem
              rcases List.mem_map.mp hmem with ⟨e, he, heq⟩
              exact hnotin (heq ▸ to_mappingFields_keys fs env e he)
            rw [hnone]
            rfl
      · have hne : g.name ≠ f.name :=
          fun heq => hnotin (heq ▸ List.mem_map.mpr ⟨f, htail, rfl⟩)
        cases hl : lookupKey env g.name with
        | some v =>
            rw [show to_mappingFields (g :: fs) env =
                  (g.name, unwrapValue g.declared_type v) ::
                    to_mappingFields fs env by
                simp [to_mappingFields, hl]]
            rw [show lookupKey
                  ((g.name, unwrapValue g.declared_type v) ::
                    to_mappingFields fs env) f.name =
                  lookupKey (to_mappingFields fs env) f.name by
                simp [lookupKey, hne]]
            exact ih hnd' htail
        | none =>
            rw [show to_mappingFields (g :: fs) env = to_mappingFields fs env by
                simp [to_mappingFields, hl]]
            exact ih hnd' htail

theorem lookupKeyCI_eq_none (m : RawMapping) (a : String)
    (h : ∀ k ∈ m.map Prod.fst, lowerStr k ≠ lowerStr a) :
    lookupKeyCI m a = none := by
  induction m with
  | nil => rfl
  | cons e rest ih =>
      rcases e with ⟨k', v'⟩
      have h1 : lowerStr k' ≠ lowerStr a := h k' (by simp)
      rw [show lookupKeyCI ((k', v') :: rest) a = lookupKeyCI rest a by
          simp [lookupKeyCI, h1]]
      exact ih (fun k hk => h k (by simp [hk]))

theorem to_mappingFields_lookupCI_none (fields : List FieldDescriptor)
    (env : Instance) (a : String)
    (h : ∀ g ∈ fields, lowerStr g.name ≠ lowerStr a) :
    lookupKeyCI (to_mappingFields fields env) a = none := by
  apply lookupKeyCI_eq_none
  intro k hk
  rcases List.mem_map.mp hk with ⟨e, he, rfl⟩
  rcases List.mem_map.mp (to_mappingFields_keys fields env e he) with ⟨g, hg, heq⟩
  rw [← heq]
  exact h g hg

theorem to_mappingFields_lookupCI_self (fields : List FieldDescriptor)
    (f : FieldDescriptor) (env : Instance) (a : String)
    (hnd : (fields.map (fun g => g.name)).Nodup) (hf : f ∈ fields)
    (hself : lowerStr f.name = lowerStr a)
    (hothers : ∀ g ∈ fields, g.name ≠ f.name → lowerStr g.name ≠ lowerStr a) :
    lookupKeyCI (to_mappingFields fields env) a =
      Option.map (unwrapValue f.declared_type) (lookupKey env f.name) := by
  induction fields with
  | nil => cases hf
  | cons g fs ih =>
      simp only [List.map_cons, List.nodup_cons] at hnd
      obtain ⟨hnotin, hnd'⟩ := hnd
      rcases List.mem_cons.mp hf with rfl | htail
      · cases hl : lookupKey env f.name with
        | some v =>
            rw [show to_mappingFields (f :: fs) env =
                  (f.name, unwrapValue f.declared_type v) ::
                    to_mappingFields fs env by
                simp [to_mappingFields, hl]]
            simp [lookupKeyCI, hself]
        | none =>
            rw [show to_mappingFields (f :: fs) env = to_mappingFields fs env by
                simp [to_mappingFields, hl]]
            have hfsno : ∀ g' ∈ fs, lowerStr g'.name ≠ lowerStr a := by
              intro g' hg'
              have hne : g'.name ≠ f.name := by
                intro heq
                exact hnotin (heq ▸ List.mem_map.mpr ⟨g', hg', rfl⟩)
              exact hothers g' (List.mem_cons_of_mem _ hg') hne
            rw [to_mappingFields_lookupCI_none fs env a hfsno]
            rfl
      · have hgne : g.name ≠ f.name := by
          intro heq
          exact hnotin (heq ▸ List.mem_map.mpr ⟨f, htail, rfl⟩)
        have hgl : lowerStr g.name ≠ lowerStr a :=
          hothers g (List.mem_cons_self _ _) hgne
        have hoth' : ∀ g' ∈ fs, g'.name ≠ f.name →
            lowerStr g'.name ≠ lowerStr a :=
          fun g' hg' => hothers g' (List.mem_cons_of_mem _ hg')
        cases hl : lookupKey env g.name with
        | some v =>
            rw [show to_mappingFields (g :: fs) env =
                  (g.name, unwrapValue g.declared_type v) ::
                    to_mappingFields fs env by
                simp [to_mappingFields, hl]]
            rw [show lookupKeyCI
                  ((g.name, unwrapValue g.declared_type v) ::
                    to_mappingFields fs env) a =
                  lookupKeyCI (to_mappingFields fs env) a by
                simp [lookupKeyCI, hgl]]
            exact ih hnd' htail hoth'
        | none =>
            rw [show to_mappingFields (g :: fs) env = to_mappingFields fs env by
                simp [to_mappingFields, hl]]
            exact ih hnd' htail hoth'

theorem validate_eq (s : Schema) (m : RawMapping) :
    validate s m =
      (match processFields s.fields m with
       | ([], env) =>
           match runModelValidators s.modelValidators env with
           | [] => .ok (evalComputed s.fields env)
           | e :: es => .error (e :: es)
       | (e :: es, _) => .error (e :: es)) := by
  rcases s with ⟨nm, fields, mv⟩
  rfl

theorem to_mapping_eq (s : Schema) (env : Instance) :
    to_mapping s env = to_mappingFields s.fields env := by
  rcases s with ⟨nm, fields, mv⟩
  rfl

theorem schemaSafe_elim (s : Schema) (hs : SchemaSafe s) :
    (s.fields.map (fun g => g.name)).Nodup ∧ AliasesOk s.fields ∧
      FieldsSafe s.fields := by
  rcases s with ⟨nm, fields, mv⟩
  simpa [SchemaSafe] using hs

mutual

theorem rt_coerce (t : TypeSpec) (v w : Value) (hs : SpecSafe t)
    (h : coerce t v = .ok w) : coerce t (unwrapValue t w) = .ok w := by
  cases t with
  | prim k =>
      cases hk : coercePrim k v with
      | error e => simp [coerce, hk] at h
      | ok u =>
          have hw : u = w := by
            simp [coerce, hk] at h
            exact h
          subst hw
          simp [coerce, unwrapValue, coercePrim_idem k v u hk]
  | fixedSeq specs =>
      cases v
      case vSeq elems =>
        by_cases hlen : elems.length = specs.length
        · rcases hce : coerceElems specs elems 0 with ⟨errs, vals⟩
          cases errs with
          | cons e es => simp [coerce, hlen, hce] at h
          | nil =>
              have hw : Value.vSeq vals = w := by
                simp [coerce, hlen, hce] at h
                exact h
              subst hw
              have hs' : SpecsSafe specs := by simpa [SpecSafe] using hs
              have hvl : vals.length = specs.length :=
                coerceElems_ok_length specs elems vals 0 hce hlen
              have hul : (unwrapElems specs vals).length = specs.length :=
                unwrapElems_length specs vals hvl
              have hre : coerceElems specs (unwrapElems specs vals) 0 = ([], vals) :=
                rt_elems specs elems vals 0 0 hs' hce
              simp [coerce, unwrapValue, hul, hre]
        · simp [coerce, hlen] at h
      all_goals simp [coerce] at h
  | nested s' =>
      cases v
      case vMap mm =>
        cases hv : validate s' mm with
        | error errs => simp [coerce, hv] at h
        | ok inst =>
            have hw : Value.vInst inst = w := by
              simp [coerce, hv] at h
              exact h
            subst hw
            have hs' : SchemaSafe s' := by simpa [SpecSafe] using hs
            have hre : validate s' (to_mapping s' inst) = .ok inst :=
              rt_validate s' mm inst hs' hv
            simp [coerce, unwrapValue, hre]
      all_goals simp [coerce] at h
termination_by sizeOf t

theorem rt_elems (ts : List TypeSpec) (vs ws : List Value) (i j : Nat)
    (hs : SpecsSafe ts) (h : coerceElems ts vs i = ([], ws)) :
    coerceElems ts (unwrapElems ts ws) j = ([], ws) := by
  cases ts with
  | nil =>
      have hw : ws = [] := by
        simp [coerceElems] at h
        exact h
      subst hw
      simp [unwrapElems, coerceElems]
  | cons t ts' =>
      cases vs with
      | nil =>
          have hw : ws = [] := by
            simp [coerceElems] at h
            exact h
          subst hw
          simp [unwrapElems, coerceElems]
      | cons v vs' =>
          rcases hrest : coerceElems ts' vs' (i + 1) with ⟨errs', vals'⟩
          cases hc : coerce t v with
          | error errs =>
              rw [show coerceElems (t :: ts') (v :: vs') i =
                    (errs.map (underPath (toString i)) ++ errs', vals') by
                  simp [coerceElems, hrest, hc]] at h
              injection h with h1 h2
              have herrs : errs = [] := by
                cases errs with
                | nil => rfl
                | cons e es' => simp at h1
              exact absurd herrs (coerce_error_nonempty t v errs hc)
          | ok u =>
              rw [show coerceElems (t :: ts') (v :: vs') i = (errs', u :: vals') by
                  simp [coerceElems, hrest, hc]] at h
              injection h with h1 h2
              subst h1
              subst h2
              obtain ⟨hst, hsts⟩ := hs
              have hcu : coerce t (unwrapValue t u) = .ok u := rt_coerce t v u hst hc
              have hrec : coerceElems ts' (unwrapElems ts' vals') (j + 1) = ([], vals') :=
                rt_elems ts' vs' vals' (i + 1) (j + 1) hsts hrest
              simp [unwrapElems, coerceElems, hcu, hrec]
termination_by sizeOf ts

theorem rt_fields (fields : List FieldDescriptor) (m M : RawMapping)
    (env₀ : Instance) (hsafe : FieldsSafe fields)
    (hnd : (fields.map (fun g => g.name)).Nodup)
    (h : processFields fields m = ([], env₀))
    (hM : ∀ f ∈ fields, f.computed = none →
      resolveInput f M =
        Option.map (unwrapValue f.declared_type) (lookupKey env₀ f.name)) :
    processFields fields M = ([], env₀) := by
  cases hfe : fields with
  | nil =>
      rw [hfe] at h
      rw [processFields_nil] at h ⊢
      injection h with h1 h2
      rw [h2]
  | cons f fs =>
      rw [hfe] at h hsafe hnd hM
      obtain ⟨hfsafe1, hfsafe'⟩ := hsafe
      have hfs1 : ValueIdValidators f.validators ∧
          DefaultSafe f ∧ SpecSafe f.declared_type := by
        simpa [FieldSafe] using hfsafe1
      obtain ⟨hvid, hdef, hspec⟩ := hfs1
      simp only [List.map_cons, List.nodup_cons] at hnd
      obtain ⟨hnotin, hnd'⟩ := hnd
      rcases hpf : processFields fs m with ⟨es', env'⟩
      rw [processFields_cons_eq f fs m es' env' hpf] at h
      injection h with h1 h2
      obtain ⟨hpf1, hes'⟩ := List.append_eq_nil.mp h1
      subst hes'
      have hMtail : ∀ f' ∈ fs, f'.computed = none →
          resolveInput f' M =
            Option.map (unwrapValue f'.declared_type) (lookupKey env₀ f'.name) :=
        fun f' hf' hc' => hM f' (List.mem_cons_of_mem _ hf') hc'
      have hMhead := hM f (List.mem_cons_self _ _)
      have hne_tail : ∀ f' ∈ fs, f'.name ≠ f.name := by
        intro f' hf' heq
        exact hnotin (heq ▸ List.mem_map.mpr ⟨f', hf', rfl⟩)
      cases hcp : f.computed with
      | some g =>
          have hm : processField f m = ([], none) := by
            simp [processField, hcp]
          rw [hm] at h2
          simp at h2
          subst h2
          have hMtail' : ∀ f' ∈ fs, f'.computed = none →
              resolveInput f' M =
                Option.map (unwrapValue f'.declared_type) (lookupKey env' f'.name) :=
            hMtail
          have hrecM : processFields fs M = ([], env') :=
            rt_fields fs m M env' hfsafe' hnd' hpf hMtail'
          rw [processFields_cons_eq f fs M [] env' hrecM]
          rw [show processField f M = ([], none) by simp [processField, hcp]]
          simp
      | none =>
          cases hres : resolveInput f m with
          | none =>
              cases hfd : f.default with
              | some dv =>
                  cases dv with
                  | inl d =>
                      have hm : processField f m = ([], some (f.name, d)) := by
                        simp [processField, hcp, hres, hfd]
                      rw [hm] at h2
                      simp at h2
                      subst h2
                      simp only [DefaultSafe, hfd] at hdef
                      obtain ⟨hdc, hdv⟩ := hdef
                      have hlook : lookupKey ((f.name, d) :: env') f.name = some d := by
                        simp [lookupKey]
                      have hresMf : resolveInput f M =
                          some (unwrapValue f.declared_type d) := by
                        rw [hMhead hcp, hlook]
                        rfl
                      have hMf : processField f M = ([], some (f.name, d)) := by
                        simp [processField, hcp, hresMf, hdc, hdv]
                      have hMtail' : ∀ f' ∈ fs, f'.computed = none →
                          resolveInput f' M =
                            Option.map (unwrapValue f'.declared_type)
                              (lookupKey env' f'.name) := by
                        intro f' hf' hc'
                        have hne' : f.name ≠ f'.name :=
                          fun hh => hne_tail f' hf' hh.symm
                        rw [hMtail f' hf' hc',
                            show lookupKey ((f.name, d) :: env') f'.name =
                              lookupKey env' f'.name by
                            simp [lookupKey, hne']]
                      have hrecM : processFields fs M = ([], env') :=
                        rt_fields fs m M env' hfsafe' hnd' hpf hMtail'
                      rw [processFields_cons_eq f fs M [] env' hrecM, hMf]
                      simp
                  | inr gen =>
                      have hm : processField f m = ([], some (f.name, gen ())) := by
                        simp [processField, hcp, hres, hfd]
                      rw [hm] at h2
                      simp at h2
                      subst h2
                      simp only [DefaultSafe, hfd] at hdef
                      obtain ⟨hdc, hdv⟩ := hdef
                      have hlook : lookupKey ((f.name, gen ()) :: env') f.name =
                          some (gen ()) := by
                        simp [lookupKey]
                      have hresMf : resolveInput f M =
                          some (unwrapValue f.declared_type (gen ())) := by
                        rw [hMhead hcp, hlook]
                        rfl
                      have hMf : processField f M = ([], some (f.name, gen ())) := by
                        simp [processField, hcp, hresMf, hdc, hdv]
                      have hMtail' : ∀ f' ∈ fs, f'.computed = none →
                          resolveInput f' M =
                            Option.map (unwrapValue f'.declared_type)
                              (lookupKey env' f'.name) := by
                        intro f' hf' hc'
                        have hne' : f.name ≠ f'.name :=
                          fun hh => hne_tail f' hf' hh.symm
                        rw [hMtail f' hf' hc',
                            show lookupKey ((f.name, gen ()) :: env') f'.name =
                              lookupKey env' f'.name by
                            simp [lookupKey, hne']]
                      have hrecM : processFields fs M = ([], env') :=
                        rt_fields fs m M env' hfsafe' hnd' hpf hMtail'
                      rw [processFields_cons_eq f fs M [] env' hrecM, hMf]
                      simp
              | none =>
                  by_cases hreq : f.required
                  · rw [show (processField f m).1 =
                          [⟨[f.name], .missingField, "required field is missing",
                            .vNull⟩] by
                        simp [processField, hcp, hres, hfd, hreq]] at hpf1
                    simp at hpf1
                  · have hm : processField f m = ([], none) := by
                      simp [processField, hcp, hres, hfd, hreq]
                    rw [hm] at h2
                    simp at h2
                    subst h2
                    have hlenv : lookupKey env' f.name = none := by
                      apply lookupKey_eq_none
                      intro hmem
                      rcases List.mem_map.mp hmem with ⟨e, he, heq⟩
                      exact hnotin
                        (heq ▸ processFields_keys fs m [] env' hpf e he)
                    have hresMf : resolveInput f M = none := by
                      rw [hMhead hcp, hlenv]
                      rfl
                    have hMf : processField f M = ([], none) := by
                      simp [processField, hcp, hresMf, hfd, hreq]
                    have hrecM : processFields fs M = ([], env') :=
                      rt_fields fs m M env' hfsafe' hnd' hpf hMtail
                    rw [processFields_cons_eq f fs M [] env' hrecM, hMf]
                    simp
          | some v =>
              cases hco : coerce f.declared_type v with
              | error errs =>
                  rw [show (processField f m).1 = errs.map (underPath f.name) by
                        simp [processField, hcp, hres, hco]] at hpf1
                  have herrs : errs = [] := by
                    cases errs with
                    | nil => rfl
                    | cons e es'' => simp at hpf1
                  exact absurd herrs (coerce_error_nonempty f.declared_type v errs hco)
              | ok w =>
                  cases hrv : runValidators f.validators w with
                  | error msg =>
                      rw [show (processField f m).1 =
                            [⟨[f.name], .valueError, msg, w⟩] by
                          simp [processField, hcp, hres, hco, hrv]] at hpf1
                      simp at hpf1
                  | ok w' =>
                      have hww : w' = w := runValidators_id f.validators w w' hvid hrv
                      subst hww
                      have hm : processField f m = ([], some (f.name, w')) := by
                        simp [processField, hcp, hres, hco, hrv]
                      rw [hm] at h2
                      simp at h2
                      subst h2
                      have hlook : lookupKey ((f.name, w') :: env') f.name =
                          some w' := by
                        simp [lookupKey]
                      have hresMf : resolveInput f M =
                          some (unwrapValue f.declared_type w') := by
                        rw [hMhead hcp, hlook]
                        rfl
                      have hcu : coerce f.declared_type
                          (unwrapValue f.declared_type w') = .ok w' :=
                        rt_coerce f.declared_type v w' hspec hco
                      have hMf : processField f M = ([], some (f.name, w')) := by
                        simp [processField, hcp, hresMf, hcu, hrv]
                      have hMtail' : ∀ f' ∈ fs, f'.computed = none →
                          resolveInput f' M =
                            Option.map (unwrapValue f'.declared_type)
                              (lookupKey env' f'.name) := by
                        intro f' hf' hc'
                        have hne' : f.name ≠ f'.name :=
                          fun hh => hne_tail f' hf' hh.symm
                        rw [hMtail f' hf' hc',
                            show lookupKey ((f.name, w') :: env') f'.name =
                              lookupKey env' f'.name by
                            simp [lookupKey, hne']]
                      have hrecM : processFields fs M = ([], env') :=
                        rt_fields fs m M env' hfsafe' hnd' hpf hMtail'
                      rw [processFields_cons_eq f fs M [] env' hrecM, hMf]
                      simp
termination_by sizeOf fields
decreasing_by
  all_goals rw [hfe]
  all_goals try rcases f with ⟨fn, ft, fr, fd, fa, fvv, fc⟩
  all_goals simp
  all_goals omega

theorem rt_validate (s : Schema) (m : RawMapping) (env : Instance)
    (hs : SchemaSafe s) (h : validate s m = .ok env) :
    validate s (to_mapping s env) = .ok env := by
  obtain ⟨hnd, hao, hfsafe⟩ := schemaSafe_elim s hs
  rw [validate_eq] at h
  rcases hpf : processFields s.fields m with ⟨errs, env₀⟩
  cases errs with
  | cons e es => simp [hpf] at h
  | nil =>
      cases hmv : runModelValidators s.modelValidators env₀ with
      | cons e es => simp [hpf, hmv] at h
      | nil =>
          simp [hpf, hmv] at h
          have hM : ∀ f ∈ s.fields, f.computed = none →
              resolveInput f (to_mappingFields s.fields env) =
                Option.map (unwrapValue f.declared_type)
                  (lookupKey env₀ f.name) := by
            intro f hf hc
            have henv : lookupKey env f.name = lookupKey env₀ f.name := by
              rw [← h]
              apply evalComputed_lookup
              intro g hg hgc heq
              have hgf : g = f := List.inj_on_of_nodup_map hnd hg hf heq
              rw [hgf, hc] at hgc
              simp at hgc
            cases haf : f.alias_name with
            | none =>
                rw [show resolveInput f (to_mappingFields s.fields env) =
                      lookupKey (to_mappingFields s.fields env) f.name by
                    simp [resolveInput, haf]]
                rw [to_mappingFields_lookup s.fields f env hnd hf, henv]
            | some a =>
                have hako := hao f hf a haf
                by_cases hself : lowerStr f.name = lowerStr a
                · have hci := to_mappingFields_lookupCI_self s.fields f env a
                    hnd hf hself (fun g hg hne hlow => hne (hako g hg hlow))
                  cases hl : lookupKey env f.name with
                  | some v =>
                      rw [hl] at hci henv
                      rw [show resolveInput f (to_mappingFields s.fields env) =
                            some (unwrapValue f.declared_type v) by
                          simp [resolveInput, haf, hci]]
                      rw [← henv]
                      rfl
                  | none =>
                      have hci' : lookupKeyCI (to_mappingFields s.fields env) a =
                          none := by
                        rw [hci, hl]
                        rfl
                      rw [show resolveInput f (to_mappingFields s.fields env) =
                            lookupKey (to_mappingFields s.fields env) f.name by
                          simp [resolveInput, haf, hci']]
                      rw [to_mappingFields_lookup s.fields f env hnd hf, henv]
                · have hnomatch : ∀ g ∈ s.fields,
                      lowerStr g.name ≠ lowerStr a := by
                    intro g hg hlow
                    exact hself ((hako g hg hlow) ▸ hlow)
                  have hci : lookupKeyCI (to_mappingFields s.fields env) a =
                      none :=
                    to_mappingFields_lookupCI_none s.fields env a hnomatch
                  rw [show resolveInput f (to_mappingFields s.fields env) =
                        lookupKey (to_mappingFields s.fields env) f.name by
                      simp [resolveInput, haf, hci]]
                  rw [to_mappingFields_lookup s.fields f env hnd hf, henv]
          have hres : processFields s.fields (to_mappingFields s.fields env) =
              ([], env₀) :=
            rt_fields s.fields m (to_mappingFields s.fields env) env₀
              hfsafe hnd hpf hM
          rw [to_mapping_eq, validate_eq]
          simp [hres, hmv, h]
termination_by sizeOf s
decreasing_by
  rcases s with ⟨nm, flds, mv⟩
  simp
  omega

end

/-- C3 (amended): the round-trip property holds for round-trip-safe schemas —
distinct field names, aliases that case-insensitively match only their own
field's name, validators that return accepted values unchanged, and defaults
that coerce back to themselves and pass their field's validators:
`validate(schema, to_mapping(v))` succeeds and produces exactly `v`
(generator-default fields need no exclusion, since their serialized values
are re-coerced rather than re-generated).  Each hypothesis is forced by one
part of the counterexample; the notebook's aliased `Settings` schema
satisfies them all. -/
theorem round_trip_for_safe_schemas (s : Schema) (m : RawMapping)
    (env : Instance) (hs : SchemaSafe s) (h : validate s m = .ok env) :
    validate s (to_mapping s env) = .ok env :=
  rt_validate s m env hs h

theorem valueIdValidators_nil : ValueIdValidators [] :=
  fun g hg => absurd hg (List.not_mem_nil g)

theorem accountIdValidator_id :
    ∀ v w, accountIdValidator v = .ok w → w = v := by
  intro v w h
  cases v with
  | vInt n =>
      by_cases hn : n < 0
      · simp [accountIdValidator, hn] at h
      · simp [accountIdValidator, hn] at h
        exact h.symm
  | vStr s => simp [accountIdValidator] at h; exact h.symm
  | vBool b => simp [accountIdValidator] at h; exact h.symm
  | vNull => simp [accountIdValidator] at h; exact h.symm
  | vDatetime d => simp [accountIdValidator] at h; exact h.symm
  | vSeq l => simp [accountIdValidator] at h; exact h.symm
  | vMap l => simp [accountIdValidator] at h; exact h.symm
  | vInst l => simp [accountIdValidator] at h; exact h.symm

theorem aliasesOk_of_no_alias (fields : List FieldDescriptor)
    (h : ∀ f ∈ fields, f.alias_name = none) : AliasesOk fields :=
  fun f hf a ha => absurd ha (by simp [h f hf])

theorem deliverySchemaSafe : SchemaSafe DeliverySchema := by
  refine ⟨by decide, aliasesOk_of_no_alias _ (by decide), ?_, ?_, ?_, ?_, trivial⟩
  · exact ⟨valueIdValidators_nil, ⟨rfl, rfl⟩, trivial⟩
  · exact ⟨valueIdValidators_nil, trivial, trivial⟩
  · exact ⟨valueIdValidators_nil, trivial, trivial, trivial, trivial, trivial⟩
  · exact ⟨valueIdValidators_nil, trivial, trivial⟩

theorem userSchemaSafe : SchemaSafe UserSchema := by
  refine ⟨by decide, aliasesOk_of_no_alias _ (by decide), ?_, ?_, ?_, trivial⟩
  · exact ⟨valueIdValidators_nil, trivial, trivial⟩
  · refine ⟨?_, trivial, trivial⟩
    intro g hg v w h
    rcases List.mem_singleton.mp hg with rfl
    exact accountIdValidator_id v w h
  · exact ⟨valueIdValidators_nil, trivial, deliverySchemaSafe⟩

theorem settingsSchemaSafe : SchemaSafe SettingsSchema := by
  refine ⟨by decide, ?_, ?_, ?_, trivial⟩
  · intro f hf a ha
    rcases List.mem_cons.mp hf with rfl | hf2
    · have ha' : a = "AUTH_KEY" := by
        have hx : (some "AUTH_KEY" : Option String) = some a := ha
        injection hx with hx'
        exact hx'.symm
      subst ha'
      intro g hg hlow
      rcases List.mem_cons.mp hg with rfl | hg2
      · rfl
      · rcases List.mem_cons.mp hg2 with rfl | hg3
        · exact absurd hlow (by decide)
        · cases hg3
    · rcases List.mem_cons.mp hf2 with rfl | hf3
      · exact absurd ha (by simp [apiKeyField])
      · cases hf3
  · exact ⟨valueIdValidators_nil, trivial, trivial⟩
  · exact ⟨valueIdValidators_nil, trivial, trivial⟩

example :
    validate SettingsSchema
        (to_mapping SettingsSchema
          [("auth_key", .vStr "auth_key!"), ("api_key", .vStr "api_key!!!")]) =
      .ok [("auth_key", .vStr "auth_key!"), ("api_key", .vStr "api_key!!!")] :=
  rfl

theorem round_trip_for_safe_schemas_witness :
    validate UserSchema (to_mapping UserSchema (userInstance 123)) =
      .ok (userInstance 123) :=
  round_trip_for_safe_schemas UserSchema (userRaw 123) (userInstance 123)
    userSchemaSafe rfl
